import Mathlib

/-!
Shallow embedding of the `seventeen` terminal front-end's core subsystems:
the incremental line cache (`src/editor/line_cache.rs`), the double-buffered
screen renderer (`src/screen.rs`) and the request/response transport
(`src/core.rs`).  Machine integers are modelled as `Nat`/`Int`, with wrapping
written explicitly where the Rust code performs an `as` cast or a
`wrapping_add`.  Rust panics (`expect`, `unimplemented!`, out-of-bounds
indexing, `assert!`, unsigned underflow) are modelled by `Option`, returning
`none` where the Rust code would abort.
-/

namespace Seventeen

/-- A terminal coordinate (`screen::Coordinate`, 0-based). -/
structure Coordinate where
  x : Nat
  y : Nat
deriving DecidableEq, Repr

/-! ## Protocol types (`src/protocol/types.rs`) -/

/-- `protocol::OpKind`. -/
inductive OpKind where
  | copy
  | skip
  | invalidate
  | update
  | ins
deriving DecidableEq, Repr

/-- `protocol::Line`: a line as it appears on the wire, all fields optional. -/
structure ProtoLine where
  text : Option String
  cursor : Option (List Nat)
  styles : Option (List Int)
deriving DecidableEq, Repr

/-- `protocol::Op`. -/
structure Op where
  op : OpKind
  n : Nat
  lines : Option (List ProtoLine)
deriving DecidableEq, Repr

/-- `protocol::Update`. -/
structure Update where
  rev : Option Nat
  ops : List Op
  pristine : Bool
deriving DecidableEq, Repr

/-! ## Line cache (`src/editor/line_cache.rs`) -/

/-- `line_cache::Line`: a fully received line of the document. -/
structure Line where
  text : String
  cursors : Option (List Nat)
  styles : List Int
deriving DecidableEq, Repr

/-- An absolute style span (`line_cache::StyleSpan`). -/
structure StyleSpan where
  id : Nat
  start : Nat
  length : Nat
deriving DecidableEq, Repr

/-- `line_cache::LineCache`: a run of unknown lines, the known lines, and a
trailing run of unknown lines. -/
structure LineCache where
  invalid_before : Nat
  lines : List Line
  invalid_after : Nat
deriving DecidableEq, Repr

namespace LineCache

/-- `LineCache::new` / `Default`. -/
def new : LineCache := ⟨0, [], 0⟩

/-- `LineCache::len`: total number of lines, invalid runs included. -/
def len (c : LineCache) : Nat :=
  c.invalid_before + c.lines.length + c.invalid_after

/-- `LineCache::is_eol`: true iff the character at column `x` of known line
`y` exists and is a newline; `false` on any out-of-range coordinate. -/
def is_eol (c : LineCache) (coordinate : Coordinate) : Bool :=
  (((c.lines.get? coordinate.y).bind
      fun line => line.text.data.get? coordinate.x).map
    fun ch => ch == '\n').getD false

/-- The line-conversion loop of `LineCache::ins`: each wire line must carry
text (`none` models the `expect` panic), its cursors move over unchanged and
missing styles default to empty. -/
def insLines : List ProtoLine → Option (List Line)
  | [] => some []
  | line :: rest =>
      match line.text with
      | none => none
      | some t =>
          (insLines rest).map fun ls =>
            Line.mk t line.cursor (line.styles.getD []) :: ls

/-- `LineCache::ins`: append fully-specified lines to the known segment. -/
def ins (c : LineCache) (ls : List ProtoLine) : Option LineCache :=
  (insLines ls).map fun newLines => { c with lines := c.lines ++ newLines }

/-- `LineCache::invalidate`: extend the leading unknown run while no known
lines exist, the trailing one afterwards. -/
def invalidate (c : LineCache) (n : Nat) : LineCache :=
  if c.lines.isEmpty then { c with invalid_before := c.invalid_before + n }
  else { c with invalid_after := c.invalid_after + n }

/-- `LineCache::copy`: move up to `n` lines from `old` into `c`, consuming
`old`'s leading unknown run first, then the front of its known lines.
Returns the updated `(new, old)` pair. -/
def copy (c : LineCache) (n : Nat) (old : LineCache) : LineCache × LineCache :=
  let step1 : LineCache × LineCache × Nat :=
    if n > 0 ∧ old.invalid_before > 0 then
      let num_invalid := if old.invalid_before > n then n else old.invalid_before
      (c.invalidate num_invalid,
        { old with invalid_before := old.invalid_before - num_invalid },
        n - num_invalid)
    else (c, old, n)
  let c := step1.1
  let old := step1.2.1
  let n := step1.2.2
  if n > 0 ∧ ¬ old.lines.isEmpty then
    ({ c with lines := c.lines ++ old.lines.take n },
      { old with lines := old.lines.drop n })
  else (c, old)

/-- `LineCache::skip`: discard up to `n` lines from the front of the cache,
consuming the leading unknown run first. -/
def skip (c : LineCache) (n : Nat) : LineCache :=
  let step1 : LineCache × Nat :=
    if n > 0 ∧ c.invalid_before > 0 then
      let num_invalid := if c.invalid_before > n then n else c.invalid_before
      ({ c with invalid_before := c.invalid_before - num_invalid }, n - num_invalid)
    else (c, n)
  let c := step1.1
  let n := step1.2
  if n > 0 ∧ ¬ c.lines.isEmpty then { c with lines := c.lines.drop n }
  else c

/-- One iteration of the op loop inside `LineCache::update`, acting on the
`(new, old)` cache pair.  `none` models the panics (`ins` with no lines,
the `unimplemented!` arm for `OpKind::Update`). -/
def applyOp (s : LineCache × LineCache) (op : Op) : Option (LineCache × LineCache) :=
  match op.op with
  | OpKind.ins =>
      (op.lines.bind fun ls => s.1.ins ls).map fun c => (c, s.2)
  | OpKind.invalidate => some (s.1.invalidate op.n, s.2)
  | OpKind.copy => some (s.1.copy op.n s.2)
  | OpKind.skip => some (s.1, s.2.skip op.n)
  | OpKind.update => none

/-- `LineCache::update`: swap the cache for an empty one and rebuild it by
applying the ops in order, draining the old state. -/
def update (c : LineCache) (u : Update) : Option LineCache :=
  (u.ops.foldlM applyOp (LineCache.new, c)).map Prod.fst

/-- The `expected_lines` accumulator of `LineCache::update`: the sum of `n`
over all non-`Skip` ops. -/
def expectedLines (ops : List Op) : Nat :=
  (ops.map fun op => if op.op ≠ OpKind.skip then op.n else 0).sum

/-- Protocol well-formedness of one op against the current `(new, old)`
cache pair: an `Ins` op carries exactly `n` fully-specified lines, and a
`Copy` op requests no more than what remains at the front of the old cache
(its leading unknown run plus its known lines). -/
def opOk (s : LineCache × LineCache) (op : Op) : Bool :=
  match op.op with
  | OpKind.ins =>
      match op.lines with
      | some ls => ls.length == op.n && ls.all fun l => l.text.isSome
      | none => false
  | OpKind.copy => decide (op.n ≤ s.2.invalid_before + s.2.lines.length)
  | OpKind.invalidate => true
  | OpKind.skip => true
  | OpKind.update => false

/-- Protocol well-formedness of a whole op sequence, threaded through the
states the op loop reaches. -/
def opsOk (s : LineCache × LineCache) : List Op → Bool
  | [] => true
  | op :: rest =>
      opOk s op &&
        match applyOp s op with
        | some s' => opsOk s' rest
        | none => false

/-- `LineCache::iter_lines` specialised to a half-open range `start..stop`,
returning the list of lines the returned iterator yields (`none` when the
availability check fails).  Mirrors the source's arithmetic for
`Bound::Included(start)` and `Bound::Excluded(stop)`:
`num = stop - 1 - start`. -/
def iter_lines (c : LineCache) (start stop : Nat) : Option (List Line) :=
  let num := stop - 1 - start
  if start < c.invalid_before ∨ c.invalid_before + c.lines.length < start + num then
    none
  else
    some ((c.lines.drop (start - c.invalid_before)).take num)

end LineCache

/-! ## Style-span decoding (`Line::iter_style_spans`) -/

/-- The value of an `i64` reinterpreted `as usize`/`as u64` (two's-complement
wrap modulo `2 ^ 64`). -/
def toU64 (v : Int) : Nat := (v % ((2 : Int) ^ 64)).toNat

/-- The chunk loop of `Line::iter_style_spans`: decode the flat
`(start_delta, length, style_id)` triples into absolute spans, threading the
end position of the previous span.  A trailing chunk shorter than three
elements makes the Rust iterator panic on `triple[1]`/`triple[2]`, modelled
by `none`. -/
def decodeStyles : List Int → Nat → Option (List StyleSpan)
  | [], _ => some []
  | s0 :: s1 :: s2 :: rest, last_span_end =>
      let span_start := toU64 ((last_span_end : Int) + s0)
      let length := toU64 s1
      let id := toU64 s2
      (decodeStyles rest (span_start + length)).map
        fun spans => StyleSpan.mk id span_start length :: spans
  | _, _ => none

/-- `Line::iter_style_spans`, collected into a list. -/
def Line.iter_style_spans (l : Line) : Option (List StyleSpan) :=
  decodeStyles l.styles 0

/-! ## Screen renderer (`src/screen.rs`) -/

/-- `screen::Color` (`color.rs`): an RGB triple. -/
structure Color where
  r : Nat
  g : Nat
  b : Nat
deriving DecidableEq, Repr

/-- `screen::Style`. -/
structure Style where
  fg : Option Color
  bg : Option Color
  bold : Bool
  underline : Bool
  italic : Bool
deriving DecidableEq, Repr

/-- `Style::default`. -/
def Style.default : Style := ⟨none, none, false, false, false⟩

/-- `screen::Cell`. -/
structure Cell where
  c : Char
  is_reverse : Bool
  span_start : Option Nat
  span_end : Option Nat
deriving DecidableEq, Repr

/-- `Cell::default`: a blank space with no attributes and no span markers. -/
def Cell.default : Cell := ⟨' ', false, none, none⟩

/-- One terminal escape sequence (or literal character) written by
`Screen::refresh`, abstracting the concrete bytes. -/
inductive Token where
  | fgColor (c : Color)
  | bgColor (c : Color)
  | goto (x y : Nat)
  | clearLine
  | fgReset
  | bgReset
  | bold
  | noFaint
  | italic
  | noItalic
  | underline
  | noUnderline
  | invert
  | noInvert
  | char (c : Char)
deriving DecidableEq, Repr

/-- `screen::Screen`: pending buffer, displayed buffer, style registry and
global text color, as a grid of rows. -/
structure Screen where
  buf : List (List Cell)
  cur_buf : List (List Cell)
  styles : List Style
  text_color : Option Color × Option Color
deriving DecidableEq, Repr

/-- The three per-attribute nesting counters of the row loop in
`Screen::refresh`. -/
structure RowState where
  bold_spans : Nat
  italic_spans : Nat
  underline_spans : Nat
deriving DecidableEq, Repr

/-- `RESERVED_STYLES`. -/
def RESERVED_STYLES : Nat := 2

namespace Screen

/-- `Screen::new_from_write`: both buffers start as a `height × width` grid
of default cells, with the reserved styles defined and no text color. -/
def new (width height : Nat) : Screen :=
  let buf := List.replicate height (List.replicate width Cell.default)
  ⟨buf, buf, List.replicate RESERVED_STYLES Style.default, (none, none)⟩

/-- `Screen::define_style`: grow the registry with defaults up to `id`, then
overwrite slot `id`. -/
def define_style (s : Screen) (id : Nat) (style : Style) : Screen :=
  let styles :=
    if s.styles.length ≤ id then
      s.styles ++ List.replicate (id + 1 - s.styles.length) Style.default
    else s.styles
  { s with styles := styles.set id style }

/-- `row.get_mut(i)` followed by a mutation: out-of-range indices are
silently ignored. -/
def modifyCell (row : List Cell) (i : Nat) (f : Cell → Cell) : List Cell :=
  match row.get? i with
  | none => row
  | some cell => row.set i (f cell)

/-- `Screen::apply_style`: record the span's boundary markers on the two
boundary cells (silently dropping out-of-range boundaries).  `none` models
the `row_mut` panic on a row index out of range. -/
def apply_style (s : Screen) (coord : Coordinate) (id : Nat) (n : Nat) : Option Screen :=
  (s.buf.get? coord.y).map fun row =>
    let row := modifyCell row coord.x fun cell => { cell with span_start := some id }
    let row := modifyCell row (coord.x + n) fun cell => { cell with span_end := some id }
    { s with buf := s.buf.set coord.y row }

/-- The cell-writing loop of `Screen::write_str`: each character replaces
the cell at its column with a fresh default cell carrying that character.
`none` models the index panic past the end of the row. -/
def writeRow (row : List Cell) (x : Nat) : List Char → Option (List Cell)
  | [] => some row
  | ch :: rest =>
      if x < row.length then
        writeRow (row.set x { Cell.default with c := ch }) (x + 1) rest
      else none

/-- `Screen::write_str`. -/
def write_str (s : Screen) (coord : Coordinate) (str : String) : Option Screen :=
  (s.buf.get? coord.y).bind fun row =>
    (writeRow row coord.x str.data).map fun row2 =>
      { s with buf := s.buf.set coord.y row2 }

/-- `Screen::draw_cursor`: set the reverse-video flag on one cell.  `none`
models the index panics. -/
def draw_cursor (s : Screen) (coord : Coordinate) : Option Screen :=
  (s.buf.get? coord.y).bind fun row =>
    if h : coord.x < row.length then
      some { s with
        buf := s.buf.set coord.y
          (row.set coord.x { row.get ⟨coord.x, h⟩ with is_reverse := true }) }
    else none

/-- `Screen::set_text_color`. -/
def set_text_color (s : Screen) (fg bg : Option Color) : Screen :=
  { s with text_color := (fg, bg) }

/-- `cell.span_start.map(|id| self.style(id).clone())`: `none` models the
panic of `style(id)` on an unregistered id. -/
def lookupStyle (styles : List Style) : Option Nat → Option (Option Style)
  | none => some none
  | some id => (styles.get? id).map some

/-- The span-start writes of the per-cell loop: the foreground escape, and
each attribute's enable sequence exactly when its nesting counter is zero. -/
def startTokens (style : Style) (st : RowState) : List Token :=
  (match style.fg with
   | some fg => [Token.fgColor fg]
   | none => []) ++
  (if style.bold ∧ st.bold_spans = 0 then [Token.bold] else []) ++
  (if style.italic ∧ st.italic_spans = 0 then [Token.italic] else []) ++
  (if style.underline ∧ st.underline_spans = 0 then [Token.underline] else [])

/-- The span-start counter increments of the per-cell loop. -/
def startBump (style : Style) (st : RowState) : RowState :=
  ⟨st.bold_spans + (if style.bold then 1 else 0),
   st.italic_spans + (if style.italic then 1 else 0),
   st.underline_spans + (if style.underline then 1 else 0)⟩

/-- The span-end counter decrements of the per-cell loop. -/
def endDrop (style : Style) (st1 : RowState) : RowState :=
  ⟨st1.bold_spans - (if style.bold then 1 else 0),
   st1.italic_spans - (if style.italic then 1 else 0),
   st1.underline_spans - (if style.underline then 1 else 0)⟩

/-- The span-end writes of the per-cell loop: color resets, and each
attribute's disable sequence exactly when its counter has dropped to zero. -/
def endTokens (starting_style : Option Style) (style : Style) (st2 : RowState) :
    List Token :=
  (if style.fg.isSome ∧
      ¬ (starting_style.map (fun s => s.fg.isSome)).getD false then
    [Token.fgReset]
  else []) ++
  (if style.bg.isSome ∧
      (starting_style.map (fun s => s.bg.isSome)).getD false then
    [Token.bgReset]
  else []) ++
  (if style.bold ∧ st2.bold_spans = 0 then [Token.noFaint] else []) ++
  (if style.italic ∧ st2.italic_spans = 0 then [Token.noItalic] else []) ++
  (if style.underline ∧ st2.underline_spans = 0 then [Token.noUnderline] else [])

/-- The character write of the per-cell loop: reverse-video cells are
wrapped in an invert/no-invert pair. -/
def charTokens (cell : Cell) : List Token :=
  if cell.is_reverse then [Token.invert, Token.char cell.c, Token.noInvert]
  else [Token.char cell.c]

/-- The body of the per-cell loop of `Screen::refresh`: emit the escape
sequences for this cell and update the nesting counters.  `none` models the
panics (style lookup on an unregistered id, `u32` underflow of a counter
decremented at zero). -/
def processCell (styles : List Style) (st : RowState) (cell : Cell) :
    Option (RowState × List Token) :=
  (lookupStyle styles cell.span_start).bind fun starting_style =>
  (lookupStyle styles cell.span_end).bind fun ending_style =>
  let startToks : List Token :=
    match starting_style with
    | none => []
    | some style => startTokens style st
  let st1 : RowState :=
    match starting_style with
    | none => st
    | some style => startBump style st
  let endStep : Option (RowState × List Token) :=
    match ending_style with
    | none => some (st1, [])
    | some style =>
        if (style.bold ∧ st1.bold_spans = 0) ∨ (style.italic ∧ st1.italic_spans = 0) ∨
            (style.underline ∧ st1.underline_spans = 0) then
          none
        else
          let st2 : RowState := endDrop style st1
          some (st2, endTokens starting_style style st2)
  endStep.map fun s2 => (s2.1, startToks ++ s2.2 ++ charTokens cell)

/-- The per-cell loop of `Screen::refresh` over a whole row. -/
def processCells (styles : List Style) : RowState → List Cell → Option (RowState × List Token)
  | st, [] => some (st, [])
  | st, cell :: rest =>
      (processCell styles st cell).bind fun s1 =>
        (processCells styles s1.1 rest).map fun s2 => (s2.1, s1.2 ++ s2.2)

/-- The end-of-row closing writes of `Screen::refresh`: any attribute whose
counter is still positive is explicitly disabled. -/
def rowTrailer (st : RowState) : List Token :=
  (if st.bold_spans > 0 then [Token.noFaint] else []) ++
  (if st.italic_spans > 0 then [Token.noItalic] else []) ++
  (if st.underline_spans > 0 then [Token.noUnderline] else [])

/-- `Screen::refresh` restricted to one changed row `i`: position the
cursor, clear the line, stream the cells, then close dangling attributes. -/
def refreshRow (styles : List Style) (i : Nat) (row : List Cell) : Option (List Token) :=
  (processCells styles ⟨0, 0, 0⟩ row).map fun s =>
    Token.goto 1 (i + 1) :: Token.clearLine :: (s.2 ++ rowTrailer s.1)

/-- The row loop of `Screen::refresh`: rows identical to the displayed
buffer are skipped outright. -/
def refreshRows (styles : List Style) : Nat → List (List Cell) → List (List Cell) → Option (List Token)
  | _, [], _ => some []
  | _, _ :: _, [] => none
  | i, row :: rest, curRow :: curRest =>
      if row = curRow then refreshRows styles (i + 1) rest curRest
      else
        (refreshRow styles i row).bind fun toks =>
          (refreshRows styles (i + 1) rest curRest).map fun toks2 => toks ++ toks2

/-- The unconditional text-color writes at the top of `Screen::refresh`. -/
def textColorTokens (s : Screen) : List Token :=
  (match s.text_color.1 with
   | some fg => [Token.fgColor fg]
   | none => []) ++
  (match s.text_color.2 with
   | some bg => [Token.bgColor bg]
   | none => [])

/-- `Screen::refresh`: emit the text-color escapes, then the diffed rows,
and promote the pending buffer to displayed. -/
def refresh (s : Screen) : Option (List Token × Screen) :=
  (refreshRows s.styles 0 s.buf s.cur_buf).map fun rowToks =>
    (textColorTokens s ++ rowToks, { s with cur_buf := s.buf })

end Screen

/-! ## Transport (`src/core.rs`) -/

namespace Core

/-- `u64::wrapping_add(1)`. -/
def wrappingSucc (id : Nat) : Nat := (id + 1) % 2 ^ 64

/-- The id-advance loop of `Core::request`:
`while map.contains_key(&self.next_id) { self.next_id = id.wrapping_add(1); }`,
with explicit fuel; `none` means the loop has not terminated within `fuel`
iterations.  Note the loop body assigns from the saved `id`, not from the
current `next_id`. -/
def advanceLoop (map : List Nat) (id : Nat) : Nat → Nat → Option Nat
  | _, 0 => none
  | next, fuel + 1 =>
      if next ∈ map then advanceLoop map id (wrappingSucc id) fuel
      else some next

/-- `Core::request`, restricted to the pending-table bookkeeping: insert the
new id (the `assert!` panic on an occupied `next_id` is `none`), then run
the advance loop.  Returns the assigned id, the new table and the new
`next_id`. -/
def request (fuel : Nat) (map : List Nat) (next_id : Nat) :
    Option (Nat × List Nat × Nat) :=
  let id := next_id
  if id ∈ map then none
  else (advanceLoop (id :: map) id id fuel).map fun next => (id, id :: map, next)

/-- `HashMap::remove(&id)`: the removed value and the remaining table
(`none` when the id is absent). -/
def removeEntry {α : Type} : List (Nat × α) → Nat → Option (α × List (Nat × α))
  | [], _ => none
  | (k, v) :: rest, id =>
      if k = id then some (v, rest)
      else (removeEntry rest id).map fun r => (r.1, (k, v) :: r.2)

/-- The `Message::Response` arm of the reader thread: remove the pending
entry for `id` and complete it with the response.  `none` models the
`.expect("got response without a request")` panic; on success the result is
the new table and the one-shot completion performed (which completer
received which response). -/
def handleResponse {α β : Type} (map : List (Nat × α)) (id : Nat) (res : β) :
    Option (List (Nat × α) × α × β) :=
  (removeEntry map id).map fun r => (r.2, r.1, res)

end Core

/-! ## Theorems -/

/-- The advance loop of `Core::request` can never leave the table `[0, 1]`
once started with saved id `0`: the loop body reassigns `next_id` from the
saved `id`, so it keeps producing `1`, which is occupied. -/
theorem advanceLoop_stuck (fuel next : Nat) (h : next ∈ [0, 1]) :
    Core.advanceLoop [0, 1] 0 next fuel = none := by
  induction fuel generalizing next with
  | zero => rfl
  | succ f ih =>
      unfold Core.advanceLoop
      rw [if_pos h]
      exact ih _ (by unfold Core.wrappingSucc; decide)

/-- C5: refuted nontermination safety of the id-advance step.  With pending
table `{1}` and `next_id = 0` (reachable after wraparound), `Core::request`
inserts id `0` and then loops forever: the loop body assigns
`next_id = id.wrapping_add(1) = 1` from the saved `id`, never advancing
past the occupied candidate `1`, contradicting the claimed linear advance
to a free id.  For every fuel bound the loop fails to terminate. -/
theorem c5_request_nontermination (fuel : Nat) :
    Core.request fuel [1] 0 = none := by
  unfold Core.request
  rw [if_neg (by decide)]
  rw [advanceLoop_stuck fuel 0 (by decide)]
  rfl

/-- `removeEntry` fails exactly when the id has no entry. -/
theorem removeEntry_eq_none {α : Type} (map : List (Nat × α)) (id : Nat) :
    Core.removeEntry map id = none ↔ ∀ p ∈ map, p.1 ≠ id := by
  induction map with
  | nil => simp [Core.removeEntry]
  | cons hd tl ih =>
      obtain ⟨k, v⟩ := hd
      by_cases hk : k = id
      · subst hk
        simp [Core.removeEntry]
      · simp only [Core.removeEntry, if_neg hk]
        rcases h1 : Core.removeEntry tl id with _ | r
        · simpa [hk, Ne.symm] using (ih.mp h1)
        · constructor
          · intro h; simp at h
          · intro h
            exact absurd h1 (by
              intro hcon
              have := (ih.mpr fun p hp => h p (List.mem_cons_of_mem _ hp))
              rw [this] at hcon
              exact Option.noConfusion hcon)

/-- A successful `removeEntry` splits the table around the first entry for
the id and removes exactly that entry. -/
theorem removeEntry_eq_some {α : Type} (map : List (Nat × α)) (id : Nat)
    (v : α) (map' : List (Nat × α)) (h : Core.removeEntry map id = some (v, map')) :
    ∃ pre post, map = pre ++ (id, v) :: post ∧ map' = pre ++ post ∧
      ∀ p ∈ pre, p.1 ≠ id := by
  induction map generalizing map' with
  | nil => simp [Core.removeEntry] at h
  | cons hd tl ih =>
      obtain ⟨k, w⟩ := hd
      by_cases hk : k = id
      · subst hk
        simp [Core.removeEntry] at h
        obtain ⟨h1, h2⟩ := h
        subst h1; subst h2
        exact ⟨[], tl, by simp⟩
      · simp only [Core.removeEntry, if_neg hk] at h
        rcases h1 : Core.removeEntry tl id with _ | ⟨v2, rest2⟩
        · rw [h1] at h; exact absurd h (by simp)
        · rw [h1] at h
          simp only [Option.map, Option.some_inj, Prod.mk.injEq] at h
          obtain ⟨hv, hm⟩ := h
          obtain ⟨pre, post, hmap, hmap', hpre⟩ := ih rest2 (by rw [h1, hv])
          refine ⟨(k, w) :: pre, post, by simp [hmap], by simp [← hm, hmap'], ?_⟩
          intro p hp
          rcases List.mem_cons.mp hp with h2 | h3
          · subst h2; exact hk
          · exact hpre p h3

/-- C6: the reader thread's `Response` handling.  A response whose id has no
pending entry makes `handleResponse` fail (`none`, modelling the fatal
`expect` panic) — never a silent no-op; a response whose id is pending
removes exactly that entry and completes it exactly once with the response. -/
theorem c6_response_handling {α β : Type} (map : List (Nat × α)) (id : Nat) (res : β) :
    (Core.handleResponse map id res = none ↔ ∀ p ∈ map, p.1 ≠ id) ∧
    (∀ map' comp r, Core.handleResponse map id res = some (map', comp, r) →
      r = res ∧
      ∃ pre post, map = pre ++ (id, comp) :: post ∧ map' = pre ++ post ∧
        ∀ p ∈ pre, p.1 ≠ id) := by
  constructor
  · unfold Core.handleResponse
    rcases h1 : Core.removeEntry map id with _ | r
    · simpa [removeEntry_eq_none map id] using h1
    · simp only [Option.map, Option.some_inj]
      constructor
      · intro h; exact absurd h (by simp)
      · intro h
        rw [(removeEntry_eq_none map id).mpr h] at h1
        exact Option.noConfusion h1
  · intro map' comp r h
    unfold Core.handleResponse at h
    rcases h1 : Core.removeEntry map id with _ | ⟨v2, rest2⟩
    · rw [h1] at h; exact absurd h (by simp)
    · rw [h1] at h
      simp only [Option.map, Option.some_inj, Prod.mk.injEq] at h
      obtain ⟨hm, hc, hr⟩ := h
      refine ⟨hr.symm, ?_⟩
      obtain ⟨pre, post, hmap, hmap', hpre⟩ :=
        removeEntry_eq_some map id v2 rest2 (by rw [h1])
      exact ⟨pre, post, by rw [hc] at hmap; exact hmap,
        by rw [← hm, hmap'], hpre⟩

/-- Instantiation of `c6_response_handling` on a concrete two-entry table:
the response for id 1 removes and completes exactly that entry. -/
theorem c6_response_handling_witness :
    (30 : Nat) = 30 ∧
    ∃ pre post,
      ([((0 : Nat), (10 : Nat)), (1, 20)]) = pre ++ (1, 20) :: post ∧
      ([((0 : Nat), (10 : Nat))]) = pre ++ post ∧
      ∀ p ∈ pre, p.1 ≠ 1 :=
  (c6_response_handling [(0, 10), (1, 20)] 1 (30 : Nat)).2
    [(0, 10)] 20 30 (by decide)

/-- Closed form of `LineCache::copy`: uniformly over all cases, the new
cache gains `min n invalid_before` unknown lines (on the side `invalidate`
chooses) and the first `n - min n invalid_before` known lines of the old
cache; the old cache loses exactly what was consumed. -/
theorem copy_eq (c old : LineCache) (n : Nat) :
    c.copy n old =
      (⟨c.invalid_before + (if c.lines.isEmpty then min n old.invalid_before else 0),
        c.lines ++ old.lines.take (n - min n old.invalid_before),
        c.invalid_after + (if c.lines.isEmpty then 0 else min n old.invalid_before)⟩,
       ⟨old.invalid_before - n,
        old.lines.drop (n - min n old.invalid_before),
        old.invalid_after⟩) := by
  obtain ⟨cb, cl, ca⟩ := c
  obtain ⟨ob, ol, oa⟩ := old
  simp only [LineCache.copy, LineCache.invalidate]
  by_cases hA : n > 0 ∧ ob > 0
  · rw [if_pos hA]
    by_cases hib : ob > n
    · rw [if_pos hib]
      rw [show min n ob = n from by omega]
      rw [if_neg (by simp [Nat.sub_self])]
      cases hcl : cl.isEmpty <;>
        simp [hcl, Nat.sub_self] <;> and_intros <;> first | rfl | omega
    · rw [if_neg hib]
      rw [show min n ob = ob from by omega]
      by_cases hB : n - ob > 0 ∧ ¬ ol.isEmpty = true
      · rw [if_pos hB]
        cases hcl : cl.isEmpty <;>
          simp [hcl] <;> and_intros <;> first | rfl | omega
      · rw [if_neg hB]
        have htk : List.take (n - ob) ol = [] := by
          rcases not_and_or.mp hB with h | h
          · rw [show n - ob = 0 from by omega]
            rfl
          · simp [List.isEmpty_iff.mp (not_not.mp h)]
        have hdp : List.drop (n - ob) ol = ol := by
          rcases not_and_or.mp hB with h | h
          · rw [show n - ob = 0 from by omega]
            rfl
          · simp [List.isEmpty_iff.mp (not_not.mp h)]
        cases hcl : cl.isEmpty <;>
          simp [hcl, htk, hdp] <;> and_intros <;> first | rfl | omega
  · rw [if_neg hA]
    rw [show min n ob = 0 from by omega]
    simp only [Nat.sub_zero]
    by_cases hB : n > 0 ∧ ¬ ol.isEmpty = true
    · rw [if_pos hB]
      cases hcl : cl.isEmpty <;>
        simp [hcl] <;> and_intros <;> first | rfl | omega
    · rw [if_neg hB]
      have htk : List.take n ol = [] := by
        rcases not_and_or.mp hB with h | h
        · rw [show n = 0 from by omega]
          rfl
        · simp [List.isEmpty_iff.mp (not_not.mp h)]
      have hdp : List.drop n ol = ol := by
        rcases not_and_or.mp hB with h | h
        · rw [show n = 0 from by omega]
          rfl
        · simp [List.isEmpty_iff.mp (not_not.mp h)]
      cases hcl : cl.isEmpty <;>
        simp [hcl, htk, hdp] <;> and_intros <;> first | rfl | omega

/-- C7: `Copy(n)` consumes the old cache with unknown-run precedence: the
old cache's leading unknown count is consumed first (up to `n`) and turned
into unknown lines of the new cache, then the remainder is moved from the
front of the old cache's known lines; the old cache's trailing unknown run
is untouched.  In particular, on a cache with `invalid_before = 1` and two
known lines, `Copy(2)` into a fresh cache keeps `invalid_before = 1` and
moves exactly the first known line. -/
theorem c7_copy_precedence :
    (∀ (c old : LineCache) (n : Nat),
      ((c.copy n old).1.lines =
        c.lines ++ old.lines.take (n - min n old.invalid_before)) ∧
      ((c.copy n old).2.invalid_before = old.invalid_before - n) ∧
      ((c.copy n old).2.lines =
        old.lines.drop (n - min n old.invalid_before)) ∧
      ((c.copy n old).2.invalid_after = old.invalid_after) ∧
      (c.lines = [] →
        (c.copy n old).1.invalid_before =
          c.invalid_before + min n old.invalid_before ∧
        (c.copy n old).1.invalid_after = c.invalid_after)) ∧
    (LineCache.copy LineCache.new 2
        ⟨1, [⟨"Hello, world!", none, []⟩, ⟨"Goodbye, world!", none, []⟩], 0⟩ =
      (⟨1, [⟨"Hello, world!", none, []⟩], 0⟩,
        ⟨0, [⟨"Goodbye, world!", none, []⟩], 0⟩)) := by
  constructor
  · intro c old n
    rw [copy_eq]
    refine ⟨rfl, rfl, rfl, rfl, fun hcl => ?_⟩
    have : c.lines.isEmpty = true := by simp [hcl]
    simp [this]
  · decide

/-- Witness for `c7_copy_precedence`: its unknown-count clause instantiated
on a fresh new cache and an old cache with one leading unknown line. -/
theorem c7_copy_precedence_witness :
    (LineCache.copy LineCache.new 2 ⟨1, [], 0⟩).1.invalid_before = 0 + min 2 1 ∧
    (LineCache.copy LineCache.new 2 ⟨1, [], 0⟩).1.invalid_after = 0 :=
  (c7_copy_precedence.1 LineCache.new ⟨1, [], 0⟩ 2).2.2.2.2 rfl

/-- C1 as literally stated is false: `Copy(1)` applied to an empty old
cache copies nothing, so `update` returns a cache of length 0 although the
sum of `n` over non-`Skip` ops is 1 (this is exactly the mismatch the
source's `debug_assert_eq!` exists to flag). -/
theorem c1_len_counterexample :
    LineCache.expectedLines [⟨OpKind.copy, 1, none⟩] = 1 ∧
    (LineCache.update LineCache.new ⟨none, [⟨OpKind.copy, 1, none⟩], true⟩).map
        LineCache.len = some 0 := by
  decide

/-- The line-conversion loop of `ins` succeeds and preserves the count when
every wire line carries text. -/
theorem insLines_all_some (ls : List ProtoLine)
    (h : ls.all (fun l => l.text.isSome) = true) :
    ∃ ns, LineCache.insLines ls = some ns ∧ ns.length = ls.length := by
  induction ls with
  | nil => exact ⟨[], rfl, rfl⟩
  | cons l rest ih =>
      simp only [List.all_cons, Bool.and_eq_true] at h
      obtain ⟨h1, h2⟩ := h
      obtain ⟨ns, hns, hlen⟩ := ih h2
      rcases ht : l.text with _ | t
      · rw [ht] at h1; cases h1
      · refine ⟨Line.mk t l.cursor (l.styles.getD []) :: ns, ?_, by simp [hlen]⟩
        simp only [LineCache.insLines, ht, hns, Option.map]

/-- `invalidate` grows the total length by exactly `n`. -/
theorem invalidate_len (c : LineCache) (n : Nat) :
    (c.invalidate n).len = c.len + n := by
  unfold LineCache.invalidate
  split <;> simp [LineCache.len] <;> omega

/-- When the old cache still holds at least `n` front lines (unknown or
known), `copy` grows the new cache's total length by exactly `n`. -/
theorem copy_len (c old : LineCache) (n : Nat)
    (h : n ≤ old.invalid_before + old.lines.length) :
    ((c.copy n old).1).len = c.len + n := by
  rw [copy_eq]
  simp only [LineCache.len, List.length_append, List.length_take]
  cases hcl : c.lines.isEmpty <;> simp [hcl] <;> omega

/-- Running the op loop from any `(new, old)` pair under protocol
well-formedness succeeds and grows the new cache's length by the sum of `n`
over non-`Skip` ops. -/
theorem foldlM_applyOp_len (ops : List Op) :
    ∀ s : LineCache × LineCache, LineCache.opsOk s ops = true →
    ∃ s', ops.foldlM LineCache.applyOp s = some s' ∧
      s'.1.len = s.1.len + LineCache.expectedLines ops := by
  induction ops with
  | nil =>
      intro s _
      exact ⟨s, rfl, by simp [LineCache.expectedLines]⟩
  | cons op rest ih =>
      intro s h
      simp only [LineCache.opsOk, Bool.and_eq_true] at h
      obtain ⟨hok, hrest⟩ := h
      rcases hap : LineCache.applyOp s op with _ | s1
      · rw [hap] at hrest; cases hrest
      · rw [hap] at hrest
        obtain ⟨s', hfold, hlen⟩ := ih s1 hrest
        have hstep : s1.1.len = s.1.len + (if op.op ≠ OpKind.skip then op.n else 0) := by
          cases hkind : op.op
          · -- Copy
            simp only [LineCache.applyOp, hkind, Option.some_inj] at hap
            have hle : op.n ≤ s.2.invalid_before + s.2.lines.length := by
              simp only [LineCache.opOk, hkind] at hok
              exact of_decide_eq_true hok
            rw [← hap]
            simpa [hkind] using copy_len s.1 s.2 op.n hle
          · -- Skip
            simp only [LineCache.applyOp, hkind, Option.some_inj] at hap
            rw [← hap]
            simp [hkind]
          · -- Invalidate
            simp only [LineCache.applyOp, hkind, Option.some_inj] at hap
            rw [← hap]
            simpa [hkind] using invalidate_len s.1 op.n
          · -- Update (ruled out by well-formedness)
            simp only [LineCache.opOk, hkind] at hok
            exact Bool.noConfusion hok
          · -- Ins
            simp only [LineCache.opOk, hkind] at hok
            rcases hls : op.lines with _ | ls
            · rw [hls] at hok; cases hok
            · rw [hls] at hok
              simp only [Bool.and_eq_true, beq_iff_eq] at hok
              obtain ⟨hcount, htext⟩ := hok
              obtain ⟨ns, hns, hnslen⟩ := insLines_all_some ls htext
              simp only [LineCache.applyOp, hkind, hls, Option.some_bind,
                LineCache.ins, hns, Option.map, Option.some_inj] at hap
              rw [← hap]
              simp [LineCache.len, hnslen, hcount, hkind]
              omega
        refine ⟨s', ?_, ?_⟩
        · rw [List.foldlM_cons, hap]
          simpa using hfold
        · rw [hlen, hstep]
          simp only [LineCache.expectedLines, List.map_cons, List.sum_cons]
          omega

/-- C1 amended: for every starting cache and every op sequence that is
protocol-well-formed (each `Ins` carries exactly `n` fully-specified lines;
each `Copy` requests no more than the old cache still holds at its front;
no unsupported op kind), `update` succeeds and the resulting total length
`invalid_before + known + invalid_after` equals the sum of `n` over all
non-`Skip` ops. -/
theorem c1_len_after_update (c : LineCache) (u : Update)
    (h : LineCache.opsOk (LineCache.new, c) u.ops = true) :
    ∃ d, c.update u = some d ∧ d.len = LineCache.expectedLines u.ops := by
  obtain ⟨s', hfold, hlen⟩ := foldlM_applyOp_len u.ops (LineCache.new, c) h
  refine ⟨s'.1, ?_, ?_⟩
  · unfold LineCache.update
    rw [hfold]
    rfl
  · rw [hlen]
    simp [LineCache.len, LineCache.new]

/-- Witness for `c1_len_after_update`: an update carrying `Ins(2)` with two
lines, `Invalidate(3)`, and `Skip(4)` against a three-line starting cache
yields a cache of total length `2 + 3 = 5`. -/
theorem c1_len_after_update_witness :
    ∃ d,
      LineCache.update
          ⟨0, [⟨"x", none, []⟩, ⟨"y", none, []⟩, ⟨"z", none, []⟩], 0⟩
          ⟨some 7,
            [⟨OpKind.ins, 2, some [⟨some "a", none, none⟩, ⟨some "b", some [1], some [0, 1, 2]⟩]⟩,
              ⟨OpKind.invalidate, 3, none⟩,
              ⟨OpKind.skip, 4, none⟩],
            false⟩ = some d ∧
      d.len =
        LineCache.expectedLines
          [⟨OpKind.ins, 2, some [⟨some "a", none, none⟩, ⟨some "b", some [1], some [0, 1, 2]⟩]⟩,
            ⟨OpKind.invalidate, 3, none⟩,
            ⟨OpKind.skip, 4, none⟩] :=
  c1_len_after_update
    ⟨0, [⟨"x", none, []⟩, ⟨"y", none, []⟩, ⟨"z", none, []⟩], 0⟩
    ⟨some 7,
      [⟨OpKind.ins, 2, some [⟨some "a", none, none⟩, ⟨some "b", some [1], some [0, 1, 2]⟩]⟩,
        ⟨OpKind.invalidate, 3, none⟩,
        ⟨OpKind.skip, 4, none⟩],
      false⟩
    (by decide)

/-- C9: `LineCache::is_eol` is a total Boolean test: it answers `true`
exactly when known line `y` exists and its character at position `x` exists
and is a newline; a missing row or a column past the end of the line yields
`false` instead of failing. -/
theorem c9_is_eol_total (c : LineCache) (coordinate : Coordinate) :
    (c.is_eol coordinate = true ↔
      ∃ line, c.lines.get? coordinate.y = some line ∧
        line.text.data.get? coordinate.x = some '\n') ∧
    (c.lines.get? coordinate.y = none → c.is_eol coordinate = false) ∧
    (∀ line, c.lines.get? coordinate.y = some line →
      line.text.data.length ≤ coordinate.x → c.is_eol coordinate = false) := by
  refine ⟨?_, ?_, ?_⟩
  · unfold LineCache.is_eol
    rcases hy : c.lines.get? coordinate.y with _ | line
    · simp
    · simp only [Option.some_bind, Option.some.injEq]
      rcases hx : line.text.data.get? coordinate.x with _ | ch
      · simp only [List.get?_eq_getElem?] at hx
        simp [hx]
      · simp only [List.get?_eq_getElem?] at hx
        simp [hx]
  · intro hy
    unfold LineCache.is_eol
    rw [hy]
    rfl
  · intro line hy hlen
    unfold LineCache.is_eol
    rw [hy, Option.some_bind]
    have hx : line.text.data.get? coordinate.x = none := by
      rw [List.get?_eq_none]
      exact hlen
    rw [hx]
    rfl

/-- Witness for `c9_is_eol_total`: on a one-line cache holding the text
ending in a newline at position 13, the coordinate of the newline answers
`true` and an interior coordinate answers `false`. -/
theorem c9_is_eol_total_witness :
    LineCache.is_eol ⟨0, [⟨"Hello, world!\n", none, []⟩], 0⟩ ⟨13, 0⟩ = true ∧
    LineCache.is_eol ⟨0, [⟨"Hello, world!\n", none, []⟩], 0⟩ ⟨10, 14⟩ = false :=
  ⟨(c9_is_eol_total ⟨0, [⟨"Hello, world!\n", none, []⟩], 0⟩ ⟨13, 0⟩).1.mpr
      ⟨⟨"Hello, world!\n", none, []⟩, by decide⟩,
    (c9_is_eol_total ⟨0, [⟨"Hello, world!\n", none, []⟩], 0⟩ ⟨10, 14⟩).2.1 (by decide)⟩

/-- C2: `LineCache::iter_lines` evaluated at the claim's own inputs, showing
the code contradicts its documented contract.  A cache of two known lines
with one trailing invalid line, read over `0..3`, yields `Some` (two lines)
although the range covers an invalid line and the doc comment promises
`None`; a fully known cache read over `0..2` yields one line, not
`2 - 0 = 2` — the `Bound::Excluded` arm computes `stop - 1 - start`. -/
theorem c2_iter_lines_bug :
    (LineCache.iter_lines ⟨0, [⟨"a", none, []⟩, ⟨"b", none, []⟩], 1⟩ 0 3 =
      some [⟨"a", none, []⟩, ⟨"b", none, []⟩]) ∧
    (LineCache.iter_lines ⟨0, [⟨"a", none, []⟩, ⟨"b", none, []⟩], 0⟩ 0 2 =
      some [⟨"a", none, []⟩]) := by
  decide

/-- C8: style-span decoding is delta-cumulative: a triple
`(d, len, id)` decoded at previous-end `lastEnd` produces a span starting
at `lastEnd + d` (when that sum is a valid `usize`) and the remaining
triples are decoded from that span's end; the spec's concrete triple list
decodes to exactly the four expected spans. -/
theorem c8_style_span_decode :
    (∀ (d len id : Int) (rest : List Int) (lastEnd : Nat),
      0 ≤ (lastEnd : Int) + d → (lastEnd : Int) + d < 2 ^ 64 →
      decodeStyles (d :: len :: id :: rest) lastEnd =
        (decodeStyles rest (((lastEnd : Int) + d).toNat + toU64 len)).map
          fun spans =>
            StyleSpan.mk (toU64 id) (((lastEnd : Int) + d).toNat) (toU64 len) :: spans) ∧
    (Line.iter_style_spans ⟨"abcdefghijklmn", some [0], [0, 3, 2, 0, 1, 3, 0, 4, 4, -1, 3, 2]⟩ =
      some [⟨2, 0, 3⟩, ⟨3, 3, 1⟩, ⟨4, 4, 4⟩, ⟨2, 7, 3⟩]) := by
  constructor
  · intro d len id rest lastEnd h1 h2
    have hmod : toU64 ((lastEnd : Int) + d) = ((lastEnd : Int) + d).toNat := by
      unfold toU64
      rw [Int.emod_eq_of_lt h1 h2]
    simp only [decodeStyles]
    rw [hmod]
  · decide

/-- Witness for `c8_style_span_decode`: the first triple of the spec's
example, decoded at previous-end 0. -/
theorem c8_style_span_decode_witness :
    decodeStyles [0, 3, 2] 0 =
      (decodeStyles [] ((((0 : Nat) : Int) + 0).toNat + toU64 3)).map
        (fun spans => StyleSpan.mk (toU64 2) (((0 : Nat) : Int) + 0).toNat (toU64 3) :: spans) :=
  c8_style_span_decode.1 0 3 2 [] 0 (by decide) (by decide)

/-- The cell-writing loop of `write_str` succeeds when the text fits, writes
a fresh default cell (clearing reverse-video and span markers) for each
character, and leaves every other cell of the row unchanged. -/
theorem writeRow_spec (cs : List Char) :
    ∀ (row : List Cell) (x : Nat), x + cs.length ≤ row.length →
    ∃ row', Screen.writeRow row x cs = some row' ∧
      row'.length = row.length ∧
      (∀ i ch, cs.get? i = some ch →
        row'.get? (x + i) = some ⟨ch, false, none, none⟩) ∧
      (∀ j, j < x ∨ x + cs.length ≤ j → row'.get? j = row.get? j) := by
  induction cs with
  | nil =>
      intro row x _
      refine ⟨row, rfl, rfl, ?_, fun j _ => rfl⟩
      intro i ch hc
      simp at hc
  | cons c rest ih =>
      intro row x h
      simp only [List.length_cons] at h
      have hx : x < row.length := by omega
      have hlen2 : (x + 1) + rest.length ≤ (row.set x ⟨c, false, none, none⟩).length := by
        simp only [List.length_set]
        omega
      obtain ⟨row', hw, hrl, hin, hout⟩ := ih (row.set x ⟨c, false, none, none⟩) (x + 1) hlen2
      refine ⟨row', ?_, by simp only [hrl, List.length_set], ?_, ?_⟩
      · simp only [Screen.writeRow, if_pos hx]
        exact hw
      · intro i ch hc
        cases i with
        | zero =>
            simp only [List.get?] at hc
            rw [show x + 0 = x from rfl]
            rw [hout x (Or.inl (by omega))]
            rw [List.get?_set_eq_of_lt _ hx]
            rw [Option.some_inj] at hc
            rw [hc]
        | succ i' =>
            simp only [List.get?] at hc
            have := hin i' ch hc
            rw [show x + (i' + 1) = (x + 1) + i' from by omega]
            exact this
      · intro j hj
        simp only [List.length_cons] at hj
        rw [hout j (by omega)]
        exact List.get?_set_ne _ _ (by omega)

/-- C10: `Screen::write_str` replaces the cells of row `y` at columns
`x .. x + len - 1` by fresh default cells carrying the characters of the
string — clearing any reverse-video flag and span markers there — and
leaves every other pending-buffer cell, the displayed buffer, the style
registry and the text color unchanged. -/
theorem c10_write_str_frame (s : Screen) (coord : Coordinate) (str : String)
    (row : List Cell) (hrow : s.buf.get? coord.y = some row)
    (hfit : coord.x + str.data.length ≤ row.length) :
    ∃ s', Screen.write_str s coord str = some s' ∧
      s'.cur_buf = s.cur_buf ∧
      s'.styles = s.styles ∧
      s'.text_color = s.text_color ∧
      (∀ y', y' ≠ coord.y → s'.buf.get? y' = s.buf.get? y') ∧
      ∃ row', s'.buf.get? coord.y = some row' ∧
        row'.length = row.length ∧
        (∀ i ch, str.data.get? i = some ch →
          row'.get? (coord.x + i) = some ⟨ch, false, none, none⟩) ∧
        (∀ j, j < coord.x ∨ coord.x + str.data.length ≤ j →
          row'.get? j = row.get? j) := by
  obtain ⟨row', hw, hrl, hin, hout⟩ := writeRow_spec str.data row coord.x hfit
  refine ⟨{ s with buf := s.buf.set coord.y row' }, ?_, rfl, rfl, rfl, ?_, row', ?_, hrl, hin, hout⟩
  · unfold Screen.write_str
    rw [hrow, Option.some_bind, hw]
    rfl
  · intro y' hy'
    exact List.get?_set_ne _ _ fun hc => hy' hc.symm
  · have hylt : coord.y < s.buf.length := by
      rcases List.get?_eq_some.mp hrow with ⟨hlt, _⟩
      exact hlt
    rw [List.get?_set_eq_of_lt _ hylt]

/-- Witness for `c10_write_str_frame`: writing a two-character string into a
one-row screen whose cells carry a reverse flag and span markers. -/
theorem c10_write_str_frame_witness :
    ∃ s',
      Screen.write_str
          ⟨[[⟨'a', true, some 1, none⟩, ⟨'b', false, none, some 2⟩, Cell.default]],
            [[Cell.default, Cell.default, Cell.default]], [], (none, none)⟩
          ⟨0, 0⟩ "xy" = some s' ∧
      s'.cur_buf = [[Cell.default, Cell.default, Cell.default]] ∧
      s'.styles = [] ∧
      s'.text_color = (none, none) ∧
      (∀ y', y' ≠ 0 →
        s'.buf.get? y' =
          ([[⟨'a', true, some 1, none⟩, ⟨'b', false, none, some 2⟩, Cell.default]] :
            List (List Cell)).get? y') ∧
      ∃ row', s'.buf.get? 0 = some row' ∧
        row'.length =
          ([⟨'a', true, some 1, none⟩, ⟨'b', false, none, some 2⟩, Cell.default] :
            List Cell).length ∧
        (∀ i ch, ("xy" : String).data.get? i = some ch →
          row'.get? (0 + i) = some ⟨ch, false, none, none⟩) ∧
        (∀ j, j < 0 ∨ 0 + ("xy" : String).data.length ≤ j →
          row'.get? j =
            ([⟨'a', true, some 1, none⟩, ⟨'b', false, none, some 2⟩, Cell.default] :
              List Cell).get? j) :=
  c10_write_str_frame
    ⟨[[⟨'a', true, some 1, none⟩, ⟨'b', false, none, some 2⟩, Cell.default]],
      [[Cell.default, Cell.default, Cell.default]], [], (none, none)⟩
    ⟨0, 0⟩ "xy"
    [⟨'a', true, some 1, none⟩, ⟨'b', false, none, some 2⟩, Cell.default]
    (by decide) (by decide)

/-- The row loop of `Screen::refresh` skips every row when the pending and
displayed buffers coincide, emitting nothing. -/
theorem refreshRows_self (styles : List Style) :
    ∀ (i : Nat) (rows : List (List Cell)),
    Screen.refreshRows styles i rows rows = some [] := by
  intro i rows
  induction rows generalizing i with
  | nil => rfl
  | cons row rest ih =>
      simp only [Screen.refreshRows, if_pos rfl]
      exact ih (i + 1)

/-- Re-flushing a screen whose displayed buffer already equals its pending
buffer emits exactly the global text-color escapes and changes nothing. -/
theorem refresh_after (s : Screen) :
    Screen.refresh { s with cur_buf := s.buf } =
      some (Screen.textColorTokens s, { s with cur_buf := s.buf }) := by
  obtain ⟨buf, cur, styles, tc⟩ := s
  simp [Screen.refresh, refreshRows_self, Screen.textColorTokens]

/-- C4 as literally stated is false: when a global text color is set, the
second of two back-to-back flushes of identical content still writes the
text-color escape — not zero bytes. -/
theorem c4_refresh_counterexample :
    (((Screen.write_str (Screen.set_text_color (Screen.new 1 1) (some ⟨255, 0, 0⟩) none)
          ⟨0, 0⟩ "x").bind Screen.refresh).bind
        fun r => (Screen.refresh r.2).map Prod.fst) =
      some [Token.fgColor ⟨255, 0, 0⟩] ∧
    [Token.fgColor (⟨255, 0, 0⟩ : Color)] ≠ ([] : List Token) := by
  decide

/-- C4 amended: after any successful `refresh` the pending buffer becomes
the displayed buffer, and an immediate second `refresh` with no mutation in
between skips every row (it emits no positioning or content bytes), writing
only the global text-color escapes — hence exactly zero bytes whenever no
text color is set. -/
theorem c4_refresh_idempotent (s : Screen) (out : List Token) (s' : Screen)
    (h : Screen.refresh s = some (out, s')) :
    s'.buf = s.buf ∧ s'.cur_buf = s.buf ∧
    Screen.refresh s' = some (Screen.textColorTokens s, s') ∧
    (s.text_color = (none, none) → Screen.refresh s' = some ([], s')) := by
  unfold Screen.refresh at h
  rcases hr : Screen.refreshRows s.styles 0 s.buf s.cur_buf with _ | toks
  · rw [hr] at h
    exact absurd h (by simp)
  · rw [hr] at h
    simp only [Option.map, Option.some_inj, Prod.mk.injEq] at h
    obtain ⟨hout, hs'⟩ := h
    subst hs'
    refine ⟨rfl, rfl, refresh_after s, fun htc => ?_⟩
    rw [refresh_after s]
    have : Screen.textColorTokens s = [] := by
      simp [Screen.textColorTokens, htc]
    rw [this]

/-- Witness for `c4_refresh_idempotent`: a fresh 2×1 screen flushes to
itself, and the second flush emits nothing. -/
theorem c4_refresh_idempotent_witness :
    (Screen.new 2 1).buf = (Screen.new 2 1).buf ∧
    (Screen.new 2 1).cur_buf = (Screen.new 2 1).buf ∧
    Screen.refresh (Screen.new 2 1) =
      some (Screen.textColorTokens (Screen.new 2 1), Screen.new 2 1) ∧
    ((Screen.new 2 1).text_color = (none, none) →
      Screen.refresh (Screen.new 2 1) = some ([], Screen.new 2 1)) :=
  c4_refresh_idempotent (Screen.new 2 1) [] (Screen.new 2 1) (by decide)

/-- Membership in a conditional singleton emission. -/
theorem mem_ite_singleton (c : Prop) [Decidable c] (t x : Token) :
    (x ∈ if c then [t] else []) ↔ (c ∧ x = t) := by
  split_ifs with h <;> simp [h]

/-- Membership in the span-start writes of a cell. -/
theorem mem_startTokens (x : Token) (sty : Style) (st : RowState) :
    x ∈ Screen.startTokens sty st ↔
      ((∃ fg, sty.fg = some fg ∧ x = Token.fgColor fg) ∨
        (x = Token.bold ∧ sty.bold = true ∧ st.bold_spans = 0) ∨
        (x = Token.italic ∧ sty.italic = true ∧ st.italic_spans = 0) ∨
        (x = Token.underline ∧ sty.underline = true ∧ st.underline_spans = 0)) := by
  unfold Screen.startTokens
  cases hfg : sty.fg <;>
    simp only [hfg, List.mem_append, mem_ite_singleton, List.mem_singleton,
      List.not_mem_nil, false_or, Option.some.injEq] <;>
    simp <;> tauto

/-- Membership in the span-end writes of a cell. -/
theorem mem_endTokens (x : Token) (starting : Option Style) (sty : Style) (st2 : RowState) :
    x ∈ Screen.endTokens starting sty st2 ↔
      ((x = Token.fgReset ∧ sty.fg.isSome = true ∧
          ¬ (starting.map (fun s => s.fg.isSome)).getD false = true) ∨
        (x = Token.bgReset ∧ sty.bg.isSome = true ∧
          (starting.map (fun s => s.bg.isSome)).getD false = true) ∨
        (x = Token.noFaint ∧ sty.bold = true ∧ st2.bold_spans = 0) ∨
        (x = Token.noItalic ∧ sty.italic = true ∧ st2.italic_spans = 0) ∨
        (x = Token.noUnderline ∧ sty.underline = true ∧ st2.underline_spans = 0)) := by
  unfold Screen.endTokens
  simp only [List.mem_append, mem_ite_singleton]
  tauto

/-- Membership in the character write of a cell. -/
theorem mem_charTokens (x : Token) (cell : Cell) :
    x ∈ Screen.charTokens cell ↔
      (x = Token.char cell.c ∨
        (cell.is_reverse = true ∧ (x = Token.invert ∨ x = Token.noInvert))) := by
  unfold Screen.charTokens
  split_ifs with h <;> simp_all <;> tauto

set_option maxHeartbeats 2000000 in
/-- C3: during the refresh of a changed row, each of bold, italic and
underline is governed by a nesting counter.  For every processed cell, the
enable sequence appears in the cell's output exactly when the cell starts a
span whose style has the attribute and the counter was zero (0 → 1), and
the disable sequence appears exactly when the cell ends such a span and the
counter has dropped to zero (1 → 0); a counter still positive after the
last cell is closed by the row trailer's explicit disable.  Concretely,
truly adjacent bold spans `[0,3)` and `[3,5)` of different ids produce one
enable/disable pair, and bold spans `[0,3)` and `[4,8)` separated by a gap
produce one pair per contiguous bold run — two. -/
theorem c3_attr_nesting :
    (∀ (styles : List Style) (st : RowState) (cell : Cell) (out : RowState × List Token),
      Screen.processCell styles st cell = some out →
      ((Token.bold ∈ out.2 ↔ ∃ id style, cell.span_start = some id ∧
          styles.get? id = some style ∧ style.bold = true ∧ st.bold_spans = 0) ∧
        (Token.italic ∈ out.2 ↔ ∃ id style, cell.span_start = some id ∧
          styles.get? id = some style ∧ style.italic = true ∧ st.italic_spans = 0) ∧
        (Token.underline ∈ out.2 ↔ ∃ id style, cell.span_start = some id ∧
          styles.get? id = some style ∧ style.underline = true ∧ st.underline_spans = 0) ∧
        (Token.noFaint ∈ out.2 ↔ ∃ id style, cell.span_end = some id ∧
          styles.get? id = some style ∧ style.bold = true ∧ out.1.bold_spans = 0) ∧
        (Token.noItalic ∈ out.2 ↔ ∃ id style, cell.span_end = some id ∧
          styles.get? id = some style ∧ style.italic = true ∧ out.1.italic_spans = 0) ∧
        (Token.noUnderline ∈ out.2 ↔ ∃ id style, cell.span_end = some id ∧
          styles.get? id = some style ∧ style.underline = true ∧
          out.1.underline_spans = 0))) ∧
    (∀ st : RowState,
      (Token.noFaint ∈ Screen.rowTrailer st ↔ 0 < st.bold_spans) ∧
      (Token.noItalic ∈ Screen.rowTrailer st ↔ 0 < st.italic_spans) ∧
      (Token.noUnderline ∈ Screen.rowTrailer st ↔ 0 < st.underline_spans)) ∧
    (((Screen.write_str
          (Screen.define_style
            (Screen.define_style (Screen.new 10 1) 2 ⟨none, none, true, false, false⟩)
            4 ⟨none, none, true, false, false⟩)
          ⟨0, 0⟩ "abcdefgh").bind fun s =>
        (Screen.apply_style s ⟨0, 0⟩ 2 3).bind fun s =>
        (Screen.apply_style s ⟨3, 0⟩ 4 2).bind fun s =>
        (Screen.refresh s).map fun r =>
          (r.1.count Token.bold, r.1.count Token.noFaint)) = some (1, 1)) ∧
    (((Screen.write_str
          (Screen.define_style
            (Screen.define_style (Screen.new 10 1) 2 ⟨none, none, true, false, false⟩)
            4 ⟨none, none, true, false, false⟩)
          ⟨0, 0⟩ "abcdefgh").bind fun s =>
        (Screen.apply_style s ⟨0, 0⟩ 2 3).bind fun s =>
        (Screen.apply_style s ⟨4, 0⟩ 4 4).bind fun s =>
        (Screen.refresh s).map fun r =>
          (r.1.count Token.bold, r.1.count Token.noFaint)) = some (2, 2)) := by
  refine ⟨?_, ?_, by decide, by decide⟩
  · intro styles st cell out h
    unfold Screen.processCell at h
    rcases hss : cell.span_start with _ | sid <;>
      rcases hse : cell.span_end with _ | eid
    · -- no span markers
      simp only [hss, hse, Screen.lookupStyle, Option.some_bind, Option.map,
        Option.some_inj] at h
      subst h
      simp [mem_charTokens, hss, hse]
    · -- only a span end
      rcases hesty : styles.get? eid with _ | esty
      · simp only [hss, hse, hesty, Screen.lookupStyle, Option.some_bind,
          Option.none_bind, Option.map] at h
        exact Option.noConfusion h
      · simp only [hss, hse, hesty, Screen.lookupStyle, Option.some_bind,
          Option.map] at h
        by_cases hC : (esty.bold = true ∧ st.bold_spans = 0) ∨
            (esty.italic = true ∧ st.italic_spans = 0) ∨
            (esty.underline = true ∧ st.underline_spans = 0)
        · rw [if_pos hC] at h
          exact absurd h (by simp)
        · rw [if_neg hC] at h
          simp only [Option.some_inj] at h
          subst h
          simp only [List.get?_eq_getElem?] at hesty
          simp [mem_endTokens, mem_charTokens, hss, hse, hesty, Screen.endDrop]
    · -- only a span start
      rcases hsty : styles.get? sid with _ | sty
      · simp only [hss, hse, hsty, Screen.lookupStyle, Option.some_bind,
          Option.none_bind, Option.map] at h
        exact Option.noConfusion h
      · simp only [hss, hse, hsty, Screen.lookupStyle, Option.some_bind,
          Option.map, Option.some_inj] at h
        subst h
        simp only [List.get?_eq_getElem?] at hsty
        simp [mem_startTokens, mem_charTokens, hss, hse, hsty]
    · -- both markers
      rcases hsty : styles.get? sid with _ | sty
      · simp only [hss, hse, hsty, Screen.lookupStyle, Option.some_bind,
          Option.none_bind, Option.map] at h
        exact Option.noConfusion h
      · rcases hesty : styles.get? eid with _ | esty
        · simp only [hss, hse, hsty, hesty, Screen.lookupStyle, Option.some_bind,
            Option.none_bind, Option.map] at h
          exact Option.noConfusion h
        · simp only [hss, hse, hsty, hesty, Screen.lookupStyle, Option.some_bind,
            Option.map] at h
          by_cases hC : (esty.bold = true ∧ (Screen.startBump sty st).bold_spans = 0) ∨
              (esty.italic = true ∧ (Screen.startBump sty st).italic_spans = 0) ∨
              (esty.underline = true ∧ (Screen.startBump sty st).underline_spans = 0)
          · rw [if_pos hC] at h
            exact absurd h (by simp)
          · rw [if_neg hC] at h
            simp only [Option.some_inj] at h
            subst h
            simp only [List.get?_eq_getElem?] at hsty hesty
            simp [mem_startTokens, mem_endTokens, mem_charTokens, hss, hse,
              hsty, hesty, Screen.endDrop, Screen.startBump]
  · intro st
    unfold Screen.rowTrailer
    split_ifs <;> simp_all

/-- Witness for `c3_attr_nesting`: a cell that both starts and ends a
bold-italic-underline span emits each enable exactly once (counters 0 → 1). -/
theorem c3_attr_nesting_witness :
    Token.bold ∈
      ((⟨0, 0, 0⟩,
        [Token.bold, Token.italic, Token.underline, Token.noFaint, Token.noItalic,
          Token.noUnderline, Token.char 'a']) : RowState × List Token).2 :=
  ((c3_attr_nesting.1 [⟨none, none, true, true, true⟩] ⟨0, 0, 0⟩
      ⟨'a', false, some 0, some 0⟩
      (⟨0, 0, 0⟩,
        [Token.bold, Token.italic, Token.underline, Token.noFaint, Token.noItalic,
          Token.noUnderline, Token.char 'a'])
      (by decide)).1).mpr
    ⟨0, ⟨none, none, true, true, true⟩, rfl, rfl, rfl, rfl⟩

end Seventeen
